import Mathlib

set_option autoImplicit false

/-!
Shallow embedding of `cargo-scaffold` (src/src/lib.rs) and proofs about its
materialization engine.  Rust data types are translated to Lean inductives and
structures; `BTreeMap<String, _>` is modelled as an association list kept
sorted by key, which reproduces both its lookup and its iteration order.
External collaborators (the handlebars renderer, the glob matchers, the
operating system) are passed in as function parameters, mirroring the spec's
"external collaborator" treatment.
-/

namespace CargoScaffold

/-- `toml::Value` (re-exported at src/lib.rs:26).  Floats are carried as their
raw 64-bit pattern; no claim computes with float arithmetic. -/
inductive Value where
  | string (s : String)
  | integer (i : Int)
  | float (bits : Nat)
  | boolean (b : Bool)
  | array (vs : List Value)

/-- `toml::Value::as_str`. -/
def Value.as_str : Value → Option String
  | .string s => some s
  | _ => none

/-- `ParameterType` (src/lib.rs:73-82). -/
inductive ParameterType where
  | string
  | integer
  | float
  | boolean
  | select
  | multiselect
  deriving DecidableEq, Repr

/-- `Parameter` (src/lib.rs:56-65); the Rust field `r#type` is `type` here. -/
structure Parameter where
  message : String
  required : Bool
  type : ParameterType
  default : Option Value
  values : Option (List Value)
  tags : Option (List String)

/-- `Hooks` (src/lib.rs:67-71). -/
structure Hooks where
  pre : Option (List String)
  post : Option (List String)

/-- `TemplateDescription` (src/lib.rs:49-54). -/
structure TemplateDescription where
  exclude : Option (List String)
  disable_templating : Option (List String)
  notes : Option String

/-- `std::collections::BTreeMap<String, α>`, modelled as an association list
kept sorted by key in strictly increasing order.  Iteration order is the list
order, i.e. ascending key order, exactly as for the Rust type. -/
abbrev Mp (α : Type) : Type := List (String × α)

/-- The empty map. -/
def Mp.empty {α : Type} : Mp α := []

/-- The key order of `BTreeMap<String, _>`: lexicographic on the character
sequence, matching `Ord for String` in Rust (UTF-8 byte order coincides with
code-point lexicographic order). -/
def keyLt (a b : String) : Prop := a.data < b.data

instance : DecidableRel keyLt :=
  fun a b => inferInstanceAs (Decidable (a.data < b.data))

theorem keyLt_irrefl (a : String) : ¬ keyLt a a := lt_irrefl a.data

theorem keyLt_trans {a b c : String} (h1 : keyLt a b) (h2 : keyLt b c) :
    keyLt a c := lt_trans h1 h2

theorem keyLt_trichotomy (a b : String) : keyLt a b ∨ a = b ∨ keyLt b a := by
  rcases lt_trichotomy a.data b.data with h | h | h
  · exact Or.inl h
  · exact Or.inr (Or.inl (String.ext h))
  · exact Or.inr (Or.inr h)

/-- `BTreeMap::insert`: sorted insertion, replacing the value on an equal key. -/
def Mp.insert {α : Type} : Mp α → String → α → Mp α
  | [], k, v => [(k, v)]
  | (k', v') :: rest, k, v =>
    if keyLt k k' then (k, v) :: (k', v') :: rest
    else if k = k' then (k, v) :: rest
    else (k', v') :: Mp.insert rest k v

/-- `BTreeMap::get`. -/
def Mp.get {α : Type} : Mp α → String → Option α
  | [], _ => none
  | (k', v') :: rest, k => if k = k' then some v' else Mp.get rest k

/-- `BTreeMap::contains_key` (also the `Entry::Vacant` test). -/
def Mp.contains {α : Type} (m : Mp α) (k : String) : Bool :=
  (m.get k).isSome

/-- The keys of the map, in iteration (ascending) order. -/
def Mp.keys {α : Type} (m : Mp α) : List String := m.map Prod.fst

/-- `BTreeMap::append self other`: every entry of `other` is moved into
`self`; on an equal key the value from `other` wins (Rust documentation:
the value from `self` is overwritten). -/
def Mp.appendMap {α : Type} (self other : Mp α) : Mp α :=
  other.foldl (fun acc kv => acc.insert kv.1 kv.2) self

/-- Building a map from a list of entries in declaration order, the way the
toml deserializer populates a `BTreeMap` (entries visited in file order,
inserted one by one).  Declaration order is not retained by the result. -/
def Mp.ofList {α : Type} (l : List (String × α)) : Mp α :=
  l.foldl (fun acc kv => acc.insert kv.1 kv.2) Mp.empty

/-- The `BTreeMap` representation invariant: keys strictly increasing. -/
def Mp.Sorted {α : Type} (m : Mp α) : Prop :=
  m.Pairwise (fun a b => keyLt a.1 b.1)

theorem Mp.get_insert_self {α : Type} (m : Mp α) (k : String) (v : α) :
    (m.insert k v).get k = some v := by
  induction m with
  | nil => simp [Mp.insert, Mp.get]
  | cons hd tl ih =>
    obtain ⟨k', v'⟩ := hd
    by_cases h1 : keyLt k k'
    · simp [Mp.insert, Mp.get, h1]
    · by_cases h2 : k = k'
      · subst h2
        simp [Mp.insert, Mp.get, if_neg (keyLt_irrefl k)]
      · simp [Mp.insert, Mp.get, h1, h2, ih]

theorem Mp.get_insert_ne {α : Type} (m : Mp α) (k q : String) (v : α)
    (h : q ≠ k) : (m.insert k v).get q = m.get q := by
  induction m with
  | nil => simp [Mp.insert, Mp.get, h]
  | cons hd tl ih =>
    obtain ⟨k', v'⟩ := hd
    by_cases h1 : keyLt k k'
    · simp [Mp.insert, Mp.get, h1, h]
    · by_cases h2 : k = k'
      · subst h2
        simp [Mp.insert, Mp.get, h1, h]
      · by_cases h3 : q = k'
        · simp [Mp.insert, Mp.get, h1, h2, h3]
        · simp [Mp.insert, Mp.get, h1, h2, h3, ih]

theorem Mp.get_eq_none_of_not_mem_keys {α : Type} (m : Mp α) (k : String)
    (h : k ∉ m.keys) : m.get k = none := by
  induction m with
  | nil => simp [Mp.get]
  | cons hd tl ih =>
    simp only [Mp.keys, List.map_cons, List.mem_cons, not_or] at h
    simp [Mp.get, h.1, ih (by simpa [Mp.keys] using h.2)]

theorem Mp.sorted_cons_head_not_mem {α : Type} (k : String) (v : α)
    (rest : Mp α) (h : Mp.Sorted ((k, v) :: rest)) : k ∉ rest.keys := by
  intro hmem
  simp only [Mp.keys, List.mem_map] at hmem
  obtain ⟨e, he, hk⟩ := hmem
  have := (List.pairwise_cons.mp h).1 e he
  rw [hk] at this
  exact keyLt_irrefl k this

theorem Mp.insert_mem_cases {α : Type} (m : Mp α) (k : String) (v : α)
    (e : String × α) (h : e ∈ m.insert k v) : e = (k, v) ∨ e ∈ m := by
  induction m with
  | nil => simpa [Mp.insert] using h
  | cons hd tl ih =>
    obtain ⟨k', v'⟩ := hd
    by_cases h1 : keyLt k k'
    · simp only [Mp.insert, h1, if_pos] at h
      rcases List.mem_cons.mp h with rfl | h'
      · exact Or.inl rfl
      · exact Or.inr h'
    · by_cases h2 : k = k'
      · subst h2
        simp only [Mp.insert, if_neg (keyLt_irrefl k), if_pos, if_false, not_false_iff] at h
        rcases List.mem_cons.mp h with rfl | h'
        · exact Or.inl rfl
        · exact Or.inr (List.mem_cons_of_mem _ h')
      · simp only [Mp.insert, h1, h2, if_neg, if_false, not_false_iff] at h
        rcases List.mem_cons.mp h with rfl | h'
        · exact Or.inr (List.mem_cons_self _ _)
        · rcases ih h' with h'' | h''
          · exact Or.inl h''
          · exact Or.inr (List.mem_cons_of_mem _ h'')

theorem Mp.sorted_insert {α : Type} (m : Mp α) (k : String) (v : α)
    (h : Mp.Sorted m) : Mp.Sorted (m.insert k v) := by
  unfold Mp.Sorted at h ⊢
  induction m with
  | nil => simp [Mp.insert]
  | cons hd tl ih =>
    obtain ⟨k', v'⟩ := hd
    have hcons := List.pairwise_cons.mp h
    by_cases h1 : keyLt k k'
    · simp only [Mp.insert, h1, if_pos]
      refine List.pairwise_cons.mpr ⟨?_, h⟩
      intro e he
      rcases List.mem_cons.mp he with rfl | he'
      · exact h1
      · exact keyLt_trans h1 (hcons.1 e he')
    · by_cases h2 : k = k'
      · subst h2
        simp only [Mp.insert, h1, if_neg, if_pos, if_false, not_false_iff]
        exact List.pairwise_cons.mpr ⟨hcons.1, hcons.2⟩
      · have hk'k : keyLt k' k := by
          rcases keyLt_trichotomy k k' with hlt | heq | hgt
          · exact absurd hlt h1
          · exact absurd heq h2
          · exact hgt
        simp only [Mp.insert, h1, h2, if_neg, if_false, not_false_iff]
        refine List.pairwise_cons.mpr ⟨?_, ih hcons.2⟩
        intro e he
        rcases Mp.insert_mem_cases tl k v e he with h' | h'
        · rw [h']
          exact hk'k
        · exact hcons.1 e h'

theorem Mp.sorted_ofList_aux {α : Type} (l : List (String × α)) (acc : Mp α)
    (h : Mp.Sorted acc) :
    Mp.Sorted (l.foldl (fun acc kv => acc.insert kv.1 kv.2) acc) := by
  induction l generalizing acc with
  | nil => simpa using h
  | cons hd tl ih =>
    simpa using ih (acc.insert hd.1 hd.2) (Mp.sorted_insert acc hd.1 hd.2 h)

theorem Mp.sorted_ofList {α : Type} (l : List (String × α)) :
    Mp.Sorted (Mp.ofList l) :=
  Mp.sorted_ofList_aux l Mp.empty (by simp [Mp.Sorted, Mp.empty])

/-- Characterization of `get` after `appendMap` when `other` is a valid
(sorted) map: the entry from `other` wins, falling back to `self`. -/
theorem Mp.get_appendMap {α : Type} (self other : Mp α) (k : String)
    (h : Mp.Sorted other) :
    (self.appendMap other).get k =
      match other.get k with
      | some v => some v
      | none => self.get k := by
  induction other generalizing self with
  | nil => simp [Mp.appendMap, Mp.get]
  | cons hd tl ih =>
    obtain ⟨k0, v0⟩ := hd
    have htl : Mp.Sorted tl := (List.pairwise_cons.mp h).2
    show (((k0, v0) :: tl).foldl (fun acc kv => acc.insert kv.1 kv.2) self).get k = _
    rw [List.foldl_cons]
    have := ih (self.insert k0 v0) htl
    rw [Mp.appendMap] at this
    rw [this]
    by_cases hk : k = k0
    · subst hk
      have hnot : k ∉ Mp.keys tl := Mp.sorted_cons_head_not_mem k v0 tl h
      rw [Mp.get_eq_none_of_not_mem_keys tl k hnot]
      simp [Mp.get, Mp.get_insert_self]
    · simp only [Mp.get, hk, if_neg, if_false, not_false_iff]
      cases htlk : Mp.get tl k with
      | some v => simp [htlk]
      | none => simp [htlk, Mp.get_insert_ne self k0 k v0 hk]

/-- The interactive collaborator (`dialoguer`): one typed answer per prompt
kind, keyed by the prompt message.  Floats are answered as raw bit patterns. -/
structure Prompter where
  askString : String → String
  askFloat : String → Nat
  askInt : String → Int
  askBool : String → Bool
  askSelect : String → Nat
  askMulti : String → List Nat

/-- `Parameter::to_value_interactive` (src/lib.rs:677-733): the constructor of
the produced `Value` is fixed by the declared parameter type.  `none` models
the `expect`/`unwrap` panics (select or multiselect with absent `values`, or
a selected index out of range); `interact` I/O errors are not modelled (the
prompter always answers). -/
def Parameter.to_value_interactive (pr : Prompter) (p : Parameter) : Option Value :=
  match p.type with
  | .string => some (Value.string (pr.askString p.message))
  | .float => some (Value.float (pr.askFloat p.message))
  | .integer => some (Value.integer (pr.askInt p.message))
  | .boolean => some (Value.boolean (pr.askBool p.message))
  | .select =>
    match p.values with
    | none => none
    | some vs => vs.get? (pr.askSelect p.message)
  | .multiselect =>
    match p.values with
    | none => none
    | some vs => Option.map Value.array ((pr.askMulti p.message).mapM (fun idx => vs.get? idx))

/-- The loop of `fetch_parameters_value` (src/lib.rs:348-352): iterate the
declared-parameters `BTreeMap` — in its iteration order, i.e. ascending key
order — and for each key vacant in the accumulating set, prompt and insert.
The second component of the result is instrumentation only: the names
prompted, in prompt order.  `none` propagates a panic from
`to_value_interactive`. -/
def fetchLoop (pr : Prompter) :
    Mp Value → List (String × Parameter) → Option (Mp Value × List String)
  | params, [] => some (params, [])
  | params, (name, p) :: rest =>
    if Mp.contains params name then fetchLoop pr params rest
    else
      match Parameter.to_value_interactive pr p with
      | none => none
      | some v =>
        match fetchLoop pr (Mp.insert params name v) rest with
        | none => none
        | some (m, tr) => some (m, name :: tr)

/-- The synthesized `name` parameter (src/lib.rs:355-362). -/
def nameParameter : Parameter :=
  { message := "What is the name of your generated project ?"
    required := true
    type := ParameterType.string
    default := none
    values := none
    tags := none }

/-- `ScaffoldDescription` (src/lib.rs:29-47); paths are lists of components. -/
structure ScaffoldDescription where
  template : TemplateDescription
  parameters : Mp Parameter
  hooks : Option Hooks
  target_dir : Option (List String)
  template_path : List String
  force : Bool
  append : Bool
  project_name : Option String
  default_parameters : Mp Value

/-- `ScaffoldDescription::fetch_parameters_value` (src/lib.rs:344-368): seed
with `default_parameters`, prompt for each declared parameter whose key is
vacant, then — if `name` is still vacant — prompt for it with the
synthesized string parameter. -/
def fetch_parameters_value (pr : Prompter) (desc : ScaffoldDescription) :
    Option (Mp Value) :=
  match fetchLoop pr desc.default_parameters desc.parameters with
  | none => none
  | some (params, _) =>
    if Mp.contains params "name" then some params
    else
      match Parameter.to_value_interactive pr nameParameter with
      | none => none
      | some v => some (Mp.insert params "name" v)

/-- `ScaffoldDescription::scaffold` (src/lib.rs:371-375) up to the call of
`internal_scaffold`: the parameter set it passes on. -/
def scaffold_params (pr : Prompter) (desc : ScaffoldDescription) :
    Option (Mp Value) :=
  match fetch_parameters_value pr desc with
  | none => none
  | some fetched => some (Mp.appendMap desc.default_parameters fetched)

/-- `ScaffoldDescription::scaffold_with_parameters` (src/lib.rs:379-389) up to
the call of `internal_scaffold`: inserts `name` from `project_name` into the
caller's map (erroring when `project_name` is unset), then appends that map
onto a copy of `default_parameters` (caller entries win). -/
def scaffold_with_parameters_params (desc : ScaffoldDescription)
    (parameters : Mp Value) : Except String (Mp Value) :=
  match desc.project_name with
  | some name =>
    Except.ok (Mp.appendMap desc.default_parameters
      (Mp.insert parameters "name" (Value.string name)))
  | none => Except.error "project_name must be set"

theorem fetchLoop_sorted (pr : Prompter) (M : List (String × Parameter))
    (params m : Mp Value) (tr : List String) (hp : Mp.Sorted params)
    (h : fetchLoop pr params M = some (m, tr)) : Mp.Sorted m := by
  induction M generalizing params tr with
  | nil =>
    simp only [fetchLoop] at h
    obtain ⟨rfl, rfl⟩ := Prod.mk.injEq .. ▸ (Option.some.injEq .. ▸ h)
    exact hp
  | cons hd rest ih =>
    obtain ⟨name, p⟩ := hd
    simp only [fetchLoop] at h
    by_cases hc : Mp.contains params name
    · rw [if_pos hc] at h
      exact ih params tr hp h
    · rw [if_neg hc] at h
      split at h
      · exact absurd h (by simp)
      · rename_i v hv
        split at h
        · exact absurd h (by simp)
        · rename_i m' tr' hrec
          simp only [Option.some.injEq, Prod.mk.injEq] at h
          obtain ⟨rfl, rfl⟩ := h
          exact ih (Mp.insert params name v) tr'
            (Mp.sorted_insert params name v hp) hrec

theorem fetchLoop_trace_filter (pr : Prompter) (seed : Mp Value)
    (M : List (String × Parameter)) (params m : Mp Value) (tr : List String)
    (hS : Mp.Sorted M)
    (hagree : ∀ k, k ∈ Mp.keys M → Mp.contains params k = Mp.contains seed k)
    (h : fetchLoop pr params M = some (m, tr)) :
    tr = (Mp.keys M).filter (fun k => !(Mp.contains seed k)) := by
  induction M generalizing params tr with
  | nil =>
    simp only [fetchLoop, Option.some.injEq, Prod.mk.injEq] at h
    simp [Mp.keys, ← h.2]
  | cons hd rest ih =>
    obtain ⟨k0, p0⟩ := hd
    have hrestS : Mp.Sorted rest := (List.pairwise_cons.mp hS).2
    have hk0notmem : k0 ∉ Mp.keys rest :=
      Mp.sorted_cons_head_not_mem k0 p0 rest hS
    have hk0agree : Mp.contains params k0 = Mp.contains seed k0 :=
      hagree k0 (by simp [Mp.keys])
    simp only [fetchLoop] at h
    by_cases hc : Mp.contains params k0
    · rw [if_pos hc] at h
      have hseedk0 : Mp.contains seed k0 = true := hk0agree ▸ hc
      have := ih params tr hrestS
        (fun k hk => hagree k (by simp [Mp.keys] at hk ⊢; exact Or.inr hk)) h
      simp [Mp.keys, List.filter_cons, hseedk0, this]
    · rw [if_neg hc] at h
      have hseedk0 : Mp.contains seed k0 = false := by
        rw [← hk0agree]
        exact Bool.not_eq_true _ ▸ (by simpa using hc)
      split at h
      · exact absurd h (by simp)
      · rename_i v hv
        split at h
        · exact absurd h (by simp)
        · rename_i m' tr' hrec
          simp only [Option.some.injEq, Prod.mk.injEq] at h
          obtain ⟨rfl, rfl⟩ := h
          have hagree' : ∀ k, k ∈ Mp.keys rest →
              Mp.contains (Mp.insert params k0 v) k = Mp.contains seed k := by
            intro k hk
            have hne : k ≠ k0 := fun heq => hk0notmem (heq ▸ hk)
            rw [Mp.contains, Mp.get_insert_ne params k0 k v hne]
            exact hagree k (by simp [Mp.keys] at hk ⊢; exact Or.inr hk)
          have := ih (Mp.insert params k0 v) tr' hrestS hagree' hrec
          simp [Mp.keys, List.filter_cons, hseedk0, this]

theorem fetchLoop_name_kind (pr : Prompter) (M : List (String × Parameter))
    (params m : Mp Value) (tr : List String)
    (hM : ∀ p, ("name", p) ∈ M → p.type = ParameterType.string)
    (hinv : Mp.get params "name" = none ∨
      ∃ s, Mp.get params "name" = some (Value.string s))
    (h : fetchLoop pr params M = some (m, tr)) :
    Mp.get m "name" = none ∨ ∃ s, Mp.get m "name" = some (Value.string s) := by
  induction M generalizing params tr with
  | nil =>
    simp only [fetchLoop, Option.some.injEq, Prod.mk.injEq] at h
    exact h.1 ▸ hinv
  | cons hd rest ih =>
    obtain ⟨k0, p0⟩ := hd
    have hMrest : ∀ p, ("name", p) ∈ rest → p.type = ParameterType.string :=
      fun p hp => hM p (List.mem_cons_of_mem _ hp)
    simp only [fetchLoop] at h
    by_cases hc : Mp.contains params k0
    · rw [if_pos hc] at h
      exact ih params tr hMrest hinv h
    · rw [if_neg hc] at h
      split at h
      · exact absurd h (by simp)
      · rename_i v hv
        split at h
        · exact absurd h (by simp)
        · rename_i m' tr' hrec
          simp only [Option.some.injEq, Prod.mk.injEq] at h
          obtain ⟨rfl, rfl⟩ := h
          by_cases hk0 : k0 = "name"
          · subst hk0
            have htype : p0.type = ParameterType.string := hM p0 (by simp)
            have hvs : v = Value.string (pr.askString p0.message) := by
              rw [Parameter.to_value_interactive, htype] at hv
              simpa using hv.symm
            refine ih (Mp.insert params "name" v) tr' hMrest ?_ hrec
            exact Or.inr ⟨pr.askString p0.message,
              by rw [Mp.get_insert_self, hvs]⟩
          · refine ih (Mp.insert params k0 v) tr' hMrest ?_ hrec
            rwa [Mp.get_insert_ne params k0 "name" v (fun he => hk0 he.symm)]

theorem fetch_parameters_value_sorted (pr : Prompter)
    (desc : ScaffoldDescription) (f : Mp Value)
    (hd : Mp.Sorted desc.default_parameters)
    (h : fetch_parameters_value pr desc = some f) : Mp.Sorted f := by
  unfold fetch_parameters_value at h
  split at h
  · exact absurd h (by simp)
  · rename_i params tr hloop
    have hs : Mp.Sorted params :=
      fetchLoop_sorted pr desc.parameters desc.default_parameters params tr hd hloop
    by_cases hc : Mp.contains params "name"
    · rw [if_pos hc] at h
      simp only [Option.some.injEq] at h
      exact h ▸ hs
    · rw [if_neg hc] at h
      split at h
      · exact absurd h (by simp)
      · rename_i v hv
        simp only [Option.some.injEq] at h
        exact h ▸ Mp.sorted_insert params "name" v hs

theorem fetch_parameters_value_has_name (pr : Prompter)
    (desc : ScaffoldDescription) (f : Mp Value)
    (h : fetch_parameters_value pr desc = some f) :
    (Mp.get f "name").isSome = true := by
  unfold fetch_parameters_value at h
  split at h
  · exact absurd h (by simp)
  · rename_i params tr hloop
    by_cases hc : Mp.contains params "name"
    · rw [if_pos hc] at h
      simp only [Option.some.injEq] at h
      rw [← h]
      exact hc
    · rw [if_neg hc] at h
      split at h
      · exact absurd h (by simp)
      · rename_i v hv
        simp only [Option.some.injEq] at h
        rw [← h, Mp.get_insert_self]
        rfl

theorem fetch_parameters_value_name_string (pr : Prompter)
    (desc : ScaffoldDescription) (f : Mp Value)
    (hM : ∀ p, ("name", p) ∈ desc.parameters → p.type = ParameterType.string)
    (hdef : Mp.get desc.default_parameters "name" = none ∨
      ∃ s, Mp.get desc.default_parameters "name" = some (Value.string s))
    (h : fetch_parameters_value pr desc = some f) :
    ∃ s, Mp.get f "name" = some (Value.string s) := by
  unfold fetch_parameters_value at h
  split at h
  · exact absurd h (by simp)
  · rename_i params tr hloop
    have hinv := fetchLoop_name_kind pr desc.parameters desc.default_parameters
      params tr hM hdef hloop
    by_cases hc : Mp.contains params "name"
    · rw [if_pos hc] at h
      simp only [Option.some.injEq] at h
      rw [← h]
      rcases hinv with hnone | hex
      · rw [Mp.contains, hnone] at hc
        exact absurd hc (by simp)
      · exact hex
    · rw [if_neg hc] at h
      split at h
      · exact absurd h (by simp)
      · rename_i v hv
        simp only [Option.some.injEq] at h
        have : v = Value.string (pr.askString nameParameter.message) := by
          rw [Parameter.to_value_interactive] at hv
          simpa [nameParameter] using hv.symm
        exact ⟨pr.askString nameParameter.message,
          by rw [← h, Mp.get_insert_self, this]⟩

/-- A prompter with fixed answers, used for concrete evaluations. -/
def promptAll : Prompter :=
  { askString := fun _ => "x"
    askFloat := fun _ => 0
    askInt := fun _ => 0
    askBool := fun _ => true
    askSelect := fun _ => 0
    askMulti := fun _ => [] }

/-- A string-typed declared parameter with the given message. -/
def strParam (msg : String) : Parameter :=
  { message := msg
    required := false
    type := ParameterType.string
    default := none
    values := none
    tags := none }

/-- C3 counterexample: a descriptor declaring parameter `b` before
parameter `a` is prompted in the order `a`, `b` — ascending key order of the
`BTreeMap`, not declaration order. -/
theorem prompt_order_not_declared_order :
    (fetchLoop promptAll Mp.empty
        (Mp.ofList [("b", strParam "B?"), ("a", strParam "A?")])).map Prod.snd =
      some ["a", "b"] ∧ (["a", "b"] : List String) ≠ ["b", "a"] := by
  constructor
  · rfl
  · decide

/-- C3 (amended): parameter resolution prompts for each declared parameter
absent from the seeded set in ascending lexicographic order of parameter
names — the iteration order of the declared-parameters `BTreeMap` — not in
descriptor declaration order; the prompt sequence is strictly sorted. -/
theorem prompt_order_sorted (pr : Prompter) (decl : List (String × Parameter))
    (seeded m : Mp Value) (tr : List String)
    (h : fetchLoop pr seeded (Mp.ofList decl) = some (m, tr)) :
    tr = (Mp.keys (Mp.ofList decl)).filter (fun k => !(Mp.contains seeded k)) ∧
    tr.Pairwise (fun a b => keyLt a b) := by
  have hS := Mp.sorted_ofList decl
  have h1 := fetchLoop_trace_filter pr seeded (Mp.ofList decl) seeded m tr hS
    (fun _ _ => rfl) h
  refine ⟨h1, ?_⟩
  have hkeys : (Mp.keys (Mp.ofList decl)).Pairwise (fun a b => keyLt a b) := by
    unfold Mp.Sorted at hS
    exact List.pairwise_map.mpr hS
  rw [h1]
  exact hkeys.filter _

/-- Witness for `prompt_order_sorted` at a concrete descriptor. -/
theorem prompt_order_sorted_witness :
    (["a", "b"] : List String) =
      (Mp.keys (Mp.ofList [("b", strParam "B?"), ("a", strParam "A?")])).filter
        (fun k => !(Mp.contains (Mp.empty (α := Value)) k)) ∧
    (["a", "b"] : List String).Pairwise (fun a b => keyLt a b) :=
  prompt_order_sorted promptAll [("b", strParam "B?"), ("a", strParam "A?")]
    Mp.empty [("a", Value.string "x"), ("b", Value.string "x")] ["a", "b"] rfl

/-- A descriptor whose declared parameter `name` has boolean type. -/
def boolNameDesc : ScaffoldDescription :=
  { template := ⟨none, none, none⟩
    parameters := Mp.ofList [("name",
      { message := "name?"
        required := false
        type := ParameterType.boolean
        default := none
        values := none
        tags := none })]
    hooks := none
    target_dir := none
    template_path := []
    force := false
    append := false
    project_name := none
    default_parameters := Mp.empty }

/-- C8 counterexample: through the interactive entry point, a descriptor
declaring a parameter named `name` of boolean type yields a parameter set in
which `name` is bound to a boolean, not a string — the `as_str` expect in the
engine then panics. -/
theorem name_not_string_counterexample :
    scaffold_params promptAll boolNameDesc = some [("name", Value.boolean true)] ∧
    ∀ s, Mp.get [("name", Value.boolean true)] "name" ≠ some (Value.string s) := by
  constructor
  · rfl
  · intro s h
    simp [Mp.get] at h

/-- C8 (amended): the parameter set always contains the key `name` before
rendering.  Through `scaffold_with_parameters` it is always bound to a
string, and an error is returned when no project name was set; through the
interactive entry point it is bound to a string provided no declared
parameter named `name` has a non-string type and any seeded `name` is a
string. -/
theorem name_resolution_sound :
    (∀ desc params, desc.project_name = none →
      scaffold_with_parameters_params desc params =
        Except.error "project_name must be set") ∧
    (∀ desc params n, desc.project_name = some n → Mp.Sorted params →
      ∃ m, scaffold_with_parameters_params desc params = Except.ok m ∧
        Mp.get m "name" = some (Value.string n)) ∧
    (∀ pr desc m, Mp.Sorted desc.default_parameters →
      scaffold_params pr desc = some m → (Mp.get m "name").isSome = true) ∧
    (∀ pr desc m, Mp.Sorted desc.default_parameters →
      (Mp.get desc.default_parameters "name" = none ∨
        ∃ s, Mp.get desc.default_parameters "name" = some (Value.string s)) →
      (∀ p, ("name", p) ∈ desc.parameters → p.type = ParameterType.string) →
      scaffold_params pr desc = some m →
      ∃ s, Mp.get m "name" = some (Value.string s)) := by
  refine ⟨?_, ?_, ?_, ?_⟩
  · intro desc params h
    unfold scaffold_with_parameters_params
    rw [h]
  · intro desc params n h hs
    refine ⟨Mp.appendMap desc.default_parameters
      (Mp.insert params "name" (Value.string n)), ?_, ?_⟩
    · unfold scaffold_with_parameters_params
      rw [h]
    · rw [Mp.get_appendMap _ _ _ (Mp.sorted_insert params "name" _ hs),
        Mp.get_insert_self]
  · intro pr desc m hd h
    unfold scaffold_params at h
    split at h
    · exact absurd h (by simp)
    · rename_i fetched hf
      simp only [Option.some.injEq] at h
      have hsf := fetch_parameters_value_sorted pr desc fetched hd hf
      have hname := fetch_parameters_value_has_name pr desc fetched hf
      rw [← h, Mp.get_appendMap _ _ _ hsf]
      cases hfg : Mp.get fetched "name" with
      | none => rw [hfg] at hname; exact absurd hname (by simp)
      | some v => simp
  · intro pr desc m hd hdef hM h
    unfold scaffold_params at h
    split at h
    · exact absurd h (by simp)
    · rename_i fetched hf
      simp only [Option.some.injEq] at h
      have hsf := fetch_parameters_value_sorted pr desc fetched hd hf
      obtain ⟨s, hs⟩ :=
        fetch_parameters_value_name_string pr desc fetched hM hdef hf
      refine ⟨s, ?_⟩
      rw [← h, Mp.get_appendMap _ _ _ hsf, hs]

/-- A descriptor with a set project name and no declared parameters. -/
def demoDesc : ScaffoldDescription :=
  { template := ⟨none, none, none⟩
    parameters := Mp.empty
    hooks := none
    target_dir := none
    template_path := []
    force := false
    append := false
    project_name := some "demo"
    default_parameters := Mp.empty }

/-- A descriptor with no project name and no declared parameters. -/
def noNameDesc : ScaffoldDescription :=
  { demoDesc with project_name := none }

/-- Witness for `name_resolution_sound` at concrete descriptors. -/
theorem name_resolution_sound_witness :
    scaffold_with_parameters_params noNameDesc Mp.empty =
      Except.error "project_name must be set" ∧
    (∃ m, scaffold_with_parameters_params demoDesc Mp.empty = Except.ok m ∧
      Mp.get m "name" = some (Value.string "demo")) ∧
    (∀ m, scaffold_params promptAll demoDesc = some m →
      (Mp.get m "name").isSome = true) ∧
    (∀ m, scaffold_params promptAll demoDesc = some m →
      ∃ s, Mp.get m "name" = some (Value.string s)) := by
  refine ⟨?_, ?_, ?_, ?_⟩
  · exact name_resolution_sound.1 noNameDesc Mp.empty rfl
  · exact name_resolution_sound.2.1 demoDesc Mp.empty "demo" rfl
      (by simp [Mp.Sorted, Mp.empty])
  · intro m hm
    exact name_resolution_sound.2.2.1 promptAll demoDesc m
      (by simp [demoDesc, Mp.Sorted, Mp.empty]) hm
  · intro m hm
    exact name_resolution_sound.2.2.2 promptAll demoDesc m
      (by simp [demoDesc, Mp.Sorted, Mp.empty])
      (Or.inl (by simp [demoDesc, Mp.empty, Mp.get]))
      (by intro p hp; simp [demoDesc, Mp.empty] at hp) hm

/-- A `std::path::Component`: the destination-path model used by
`render_path` (src/lib.rs:650-674). -/
inductive Component where
  | rootDir
  | curDir
  | parentDir
  | normal (s : String)
  deriving DecidableEq, Repr

/-- `render_path` (src/lib.rs:650-674): each `Normal` component is rendered
separately through the templating engine and pushed onto the output; root,
parent-directory and current-directory components are pushed unchanged.  The
engine is the opaque collaborator `render`; a failing render aborts with the
first error, as the Rust `?` does.  Components are already Unicode strings
here, so the invalid-Unicode error path has no counterpart. -/
def render_path (render : String → Except String String) :
    List Component → Except String (List Component)
  | [] => Except.ok []
  | Component.normal s :: rest =>
    match render s with
    | Except.error e => Except.error e
    | Except.ok r =>
      match render_path render rest with
      | Except.error e => Except.error e
      | Except.ok tail => Except.ok (Component.normal r :: tail)
  | c :: rest =>
    match render_path render rest with
    | Except.error e => Except.error e
    | Except.ok tail => Except.ok (c :: tail)

/-- Modelled from the spec's wording of the path-rendering sub-algorithm
(spec §4.4): component-wise substitution, `Normal` components substituted
independently, all other components passed through. -/
def render_path_componentwise (subst : String → String) (p : List Component) :
    List Component :=
  p.map (fun c => match c with
    | Component.normal s => Component.normal (subst s)
    | c => c)

/-- C9: when every normal component renders successfully, `render_path`
renders each path component independently and rejoins them — the result is
exactly the component-wise substitution of the spec, with root, parent and
current-directory components passed through unrendered. -/
theorem render_path_is_componentwise (render : String → Except String String)
    (subst : String → String) (p : List Component)
    (h : ∀ s, Component.normal s ∈ p → render s = Except.ok (subst s)) :
    render_path render p = Except.ok (render_path_componentwise subst p) := by
  induction p with
  | nil => rfl
  | cons c rest ih =>
    have hrest : render_path render rest =
        Except.ok (render_path_componentwise subst rest) :=
      ih (fun s hs => h s (List.mem_cons_of_mem _ hs))
    cases c with
    | normal s =>
      have hs : render s = Except.ok (subst s) := h s (List.mem_cons_self _ _)
      simp only [render_path, hs, hrest, render_path_componentwise, List.map_cons]
    | rootDir =>
      simp only [render_path, hrest, render_path_componentwise, List.map_cons]
    | curDir =>
      simp only [render_path, hrest, render_path_componentwise, List.map_cons]
    | parentDir =>
      simp only [render_path, hrest, render_path_componentwise, List.map_cons]

/-- A small rendering engine substituting one placeholder, for witnesses. -/
def demoRender (s : String) : Except String String :=
  Except.ok (if s = "{{name}}.rs" then "demo.rs" else s)

/-- The substitution function corresponding to `demoRender`. -/
def demoSubst (s : String) : String :=
  if s = "{{name}}.rs" then "demo.rs" else s

/-- Witness for `render_path_is_componentwise` at a concrete path whose
placeholder is confined to a single component. -/
theorem render_path_is_componentwise_witness :
    render_path demoRender
        [Component.rootDir, Component.normal "src", Component.normal "{{name}}.rs"] =
      Except.ok (render_path_componentwise demoSubst
        [Component.rootDir, Component.normal "src", Component.normal "{{name}}.rs"]) :=
  render_path_is_componentwise demoRender demoSubst
    [Component.rootDir, Component.normal "src", Component.normal "{{name}}.rs"]
    (by
      intro s hs
      simp only [List.mem_cons, List.not_mem_nil, or_false] at hs
      rcases hs with hs | hs | hs
      · exact absurd hs (by simp)
      · injection hs with hs
        subst hs
        rfl
      · injection hs with hs
        subst hs
        rfl)

/-- The bytes and permission bits of one file in the model filesystem. -/
structure FileData where
  bytes : List Nat
  perm : Nat
  deriving DecidableEq, Repr

/-- A flat model of the filesystem as seen by the materialization loop: the
directories that exist and the files with their data.  Paths are component
lists. -/
structure FS where
  dirs : List (List String)
  files : List (List String × FileData)
  deriving DecidableEq, Repr

/-- Look up a path in a file table. -/
def FS.lookupFile : List (List String × FileData) → List String → Option FileData
  | [], _ => none
  | (k, d) :: rest, p => if k = p then some d else FS.lookupFile rest p

/-- Drop every entry of a file table stored at the given path. -/
def FS.removeFile : List (List String × FileData) → List String →
    List (List String × FileData)
  | [], _ => []
  | (k, d) :: rest, p =>
    if k = p then FS.removeFile rest p else (k, d) :: FS.removeFile rest p

/-- Look up the data of the file at `p`, if one exists. -/
def FS.getFile (fs : FS) (p : List String) : Option FileData :=
  FS.lookupFile fs.files p

/-- Replace or add the file at `p`. -/
def FS.setFile (fs : FS) (p : List String) (d : FileData) : FS :=
  { fs with files := (p, d) :: FS.removeFile fs.files p }

/-- Whether a directory exists at `p`. -/
def FS.dirExists (fs : FS) (p : List String) : Bool :=
  decide (p ∈ fs.dirs)

/-- Whether a file exists at `p`. -/
def FS.fileExists (fs : FS) (p : List String) : Bool :=
  (fs.getFile p).isSome

/-- `Path::exists`: something (directory or file) exists at `p`. -/
def FS.pathExists (fs : FS) (p : List String) : Bool :=
  fs.dirExists p || fs.fileExists p

/-- `fs::create_dir` at a path known vacant: record the directory. -/
def FS.createDir (fs : FS) (p : List String) : FS :=
  { fs with dirs := p :: fs.dirs }

/-- `fs::remove_dir_all`: remove `p` and everything below it (directories and
files whose path has `p` as prefix). -/
def FS.removeDirAll (fs : FS) (p : List String) : FS :=
  { dirs := fs.dirs.filter (fun d => !decide (p <+: d))
    files := fs.files.filter (fun e => !decide (p <+: e.1)) }

/-- The file write of src/lib.rs:544-548:
`OpenOptions::new().write(true).create(true).open` followed by
`set_permissions` and `write_all`.  The open does NOT truncate, so the bytes
of a pre-existing longer file beyond the written range survive. -/
def FS.writeFile (fs : FS) (p : List String) (content : List Nat) (perm : Nat) : FS :=
  let old := (Option.map FileData.bytes (fs.getFile p)).getD []
  fs.setFile p { bytes := content ++ old.drop content.length, perm := perm }

/-- `fs::create_dir_all` at `p`: a no-op when a directory already exists
there, an error when a non-directory is in the way, otherwise create it
(missing ancestors are elided from the model). -/
def FS.createDirAll (fs : FS) (p : List String) : Except String FS :=
  if fs.dirExists p then Except.ok fs
  else if fs.fileExists p then Except.error "cannot create directory over a file"
  else Except.ok (fs.createDir p)

/-- `ScaffoldDescription::create_dir` (src/lib.rs:294-341) as its effect on
the filesystem at the already-resolved path `dirPath` (the target-dir/name
resolution, printing and canonicalization are elided): when the path exists,
neither flag errors out, `force` removes recursively; in every non-error
case `fs::create_dir_all` then runs unconditionally. -/
def create_dir (force append : Bool) (fs : FS) (dirPath : List String) :
    Except String FS :=
  if fs.pathExists dirPath then
    if !force && !append then
      Except.error "cannot create directory because it already exists"
    else if force then FS.createDirAll (fs.removeDirAll dirPath) dirPath
    else FS.createDirAll fs dirPath
  else FS.createDirAll fs dirPath

/-- The kind of a walked entry. -/
inductive EntryKind where
  | dir
  | file
  deriving DecidableEq, Repr

/-- One non-root entry of the template walk as consumed by the loop of
`internal_scaffold` (src/lib.rs:483-549): its template-relative path
(`entry_path`), its kind, its raw bytes and its permission bits. -/
structure SrcEntry where
  rel : List String
  kind : EntryKind
  content : List Nat
  perm : Nat
  deriving DecidableEq, Repr

/-- The collaborators of the materialization loop: the path renderer
(`render_path` over the templating engine with the resolved parameter set),
the content renderer (`render_template`), UTF-8 decoding/encoding and the
compiled disable-templating matcher over template-relative paths. -/
structure RenderCtx where
  renderP : List String → Except String (List String)
  renderC : String → Except String String
  utf8Decode : List Nat → Option String
  utf8Encode : String → List Nat
  disable : List String → Bool

/-- The destination path and content computed for one entry by the loop body
(src/lib.rs:490-531): directories render `entry_path` and join it under the
target root; files matched by disable-templating keep the verbatim joined
path and raw bytes; other files must decode as UTF-8, their content is
rendered first, then the joined path is rendered. -/
def entryComputed (ctx : RenderCtx) (dirPath : List String) (e : SrcEntry) :
    Except String (List String × List Nat) :=
  match e.kind with
  | EntryKind.dir =>
    match ctx.renderP e.rel with
    | Except.error err => Except.error err
    | Except.ok d => Except.ok (dirPath ++ d, [])
  | EntryKind.file =>
    if ctx.disable e.rel then Except.ok (dirPath ++ e.rel, e.content)
    else
      match ctx.utf8Decode e.content with
      | none => Except.error "invalid UTF-8, consider disabling templating for this file"
      | some s =>
        match ctx.renderC s with
        | Except.error err => Except.error err
        | Except.ok rendered =>
          match ctx.renderP (dirPath ++ e.rel) with
          | Except.error err => Except.error err
          | Except.ok d => Except.ok (d, ctx.utf8Encode rendered)

/-- The loop body of `internal_scaffold` for one entry (src/lib.rs:483-549):
directories are force-removed when present, skipped under `append` when
present, otherwise created (`fs::create_dir` errors when something is still
in the way); files are skipped when present under `append` without `force`,
otherwise written with the non-truncating write and the source permission
bits. -/
def processEntry (ctx : RenderCtx) (force append : Bool) (dirPath : List String)
    (fs : FS) (e : SrcEntry) : Except String FS :=
  match entryComputed ctx dirPath e with
  | Except.error err => Except.error err
  | Except.ok (dest, content) =>
    match e.kind with
    | EntryKind.dir =>
      let fs1 := if fs.pathExists dest && force then fs.removeDirAll dest else fs
      if fs1.pathExists dest && append then Except.ok fs1
      else if fs1.pathExists dest then Except.error "cannot create dir"
      else Except.ok (fs1.createDir dest)
    | EntryKind.file =>
      if fs.pathExists dest && !force && append then Except.ok fs
      else Except.ok (fs.writeFile dest content e.perm)

/-- The walked entries processed in order, aborting on the first error. -/
def runEntries (ctx : RenderCtx) (force append : Bool) (dirPath : List String) :
    FS → List SrcEntry → Except String FS
  | fs, [] => Except.ok fs
  | fs, e :: rest =>
    match processEntry ctx force append dirPath fs e with
    | Except.error err => Except.error err
    | Except.ok fs' => runEntries ctx force append dirPath fs' rest

/-- The filesystem effect of `internal_scaffold` (src/lib.rs:391-599):
resolve/create the target directory, then materialize every walked entry
(hooks and notes have no filesystem effect in the model). -/
def internal_scaffold_fs (ctx : RenderCtx) (force append : Bool)
    (dirPath : List String) (fs : FS) (entries : List SrcEntry) :
    Except String FS :=
  match create_dir force append fs dirPath with
  | Except.error err => Except.error err
  | Except.ok fs1 => runEntries ctx force append dirPath fs1 entries

theorem FS.lookupFile_removeFile_ne (files : List (List String × FileData))
    (p q : List String) (h : q ≠ p) :
    FS.lookupFile (FS.removeFile files p) q = FS.lookupFile files q := by
  induction files with
  | nil => rfl
  | cons hd tl ih =>
    obtain ⟨k, d⟩ := hd
    by_cases hk : k = p
    · have hkq : ¬ k = q := fun he => h (he.symm.trans hk)
      rw [FS.removeFile, if_pos hk, ih, FS.lookupFile, if_neg hkq]
    · by_cases hq : k = q
      · rw [FS.removeFile, if_neg hk, FS.lookupFile, if_pos hq,
          FS.lookupFile, if_pos hq]
      · rw [FS.removeFile, if_neg hk, FS.lookupFile, if_neg hq,
          FS.lookupFile, if_neg hq, ih]

theorem FS.lookupFile_filter_below (files : List (List String × FileData))
    (p q : List String) (hpq : p <+: q) :
    FS.lookupFile (files.filter (fun e => !decide (p <+: e.1))) q = none := by
  induction files with
  | nil => rfl
  | cons hd tl ih =>
    by_cases hb : p <+: hd.1
    · rw [List.filter_cons, if_neg (by simp [hb])]
      exact ih
    · rw [List.filter_cons, if_pos (by simp [hb])]
      obtain ⟨k, d⟩ := hd
      have hkq : ¬ k = q := by
        intro he
        exact hb (by simpa [he] using hpq)
      rw [FS.lookupFile, if_neg hkq]
      exact ih

theorem FS.getFile_setFile_self (fs : FS) (p : List String) (d : FileData) :
    (fs.setFile p d).getFile p = some d := by
  simp [FS.setFile, FS.getFile, FS.lookupFile]

theorem FS.getFile_setFile_ne (fs : FS) (p q : List String) (d : FileData)
    (h : q ≠ p) : (fs.setFile p d).getFile q = fs.getFile q := by
  have hne : ¬ p = q := fun he => h he.symm
  rw [FS.setFile, FS.getFile, FS.lookupFile]
  simp only [if_neg hne]
  exact FS.lookupFile_removeFile_ne fs.files p q h

theorem FS.dirExists_writeFile (fs : FS) (p q : List String)
    (content : List Nat) (perm : Nat) :
    (fs.writeFile p content perm).dirExists q = fs.dirExists q := rfl

theorem FS.fileExists_writeFile_self (fs : FS) (p : List String)
    (content : List Nat) (perm : Nat) :
    (fs.writeFile p content perm).fileExists p = true := by
  simp [FS.writeFile, FS.fileExists, FS.getFile_setFile_self]

theorem FS.pathExists_writeFile_self (fs : FS) (p : List String)
    (content : List Nat) (perm : Nat) :
    (fs.writeFile p content perm).pathExists p = true := by
  simp [FS.pathExists, FS.fileExists_writeFile_self]

theorem FS.pathExists_writeFile_mono (fs : FS) (p q : List String)
    (content : List Nat) (perm : Nat) (h : fs.pathExists q = true) :
    (fs.writeFile p content perm).pathExists q = true := by
  by_cases hq : q = p
  · rw [hq]
    exact FS.pathExists_writeFile_self fs p content perm
  · simp only [FS.pathExists, FS.dirExists_writeFile] at h ⊢
    rcases Bool.or_eq_true_iff.mp h with hd | hf
    · simp [hd]
    · have : (fs.writeFile p content perm).fileExists q = true := by
        simp only [FS.writeFile, FS.fileExists]
        rw [FS.getFile_setFile_ne _ _ _ _ hq]
        exact hf
      simp [this]

theorem FS.dirExists_createDir_self (fs : FS) (p : List String) :
    (fs.createDir p).dirExists p = true := by
  simp [FS.createDir, FS.dirExists]

theorem FS.dirExists_createDir_mono (fs : FS) (p q : List String)
    (h : fs.dirExists q = true) : (fs.createDir p).dirExists q = true := by
  simp only [FS.createDir, FS.dirExists, decide_eq_true_eq] at h ⊢
  exact List.mem_cons_of_mem _ h

theorem FS.pathExists_createDir_self (fs : FS) (p : List String) :
    (fs.createDir p).pathExists p = true := by
  simp [FS.pathExists, FS.dirExists_createDir_self]

theorem FS.pathExists_createDir_mono (fs : FS) (p q : List String)
    (h : fs.pathExists q = true) : (fs.createDir p).pathExists q = true := by
  simp only [FS.pathExists] at h ⊢
  rcases Bool.or_eq_true_iff.mp h with hd | hf
  · simp [FS.dirExists_createDir_mono fs p q hd]
  · have : (fs.createDir p).fileExists q = fs.fileExists q := rfl
    simp [this, hf]

theorem FS.createDirAll_dirExists (fs fs₂ : FS) (p : List String)
    (h : FS.createDirAll fs p = Except.ok fs₂) : fs₂.dirExists p = true := by
  unfold FS.createDirAll at h
  by_cases hd : fs.dirExists p
  · rw [if_pos hd] at h
    simp only [Except.ok.injEq] at h
    exact h ▸ hd
  · rw [if_neg hd] at h
    by_cases hf : fs.fileExists p
    · rw [if_pos hf] at h
      exact absurd h (by simp)
    · rw [if_neg hf] at h
      simp only [Except.ok.injEq] at h
      exact h ▸ FS.dirExists_createDir_self fs p

theorem create_dir_dirExists (force append : Bool) (fs fs₁ : FS)
    (tp : List String) (h : create_dir force append fs tp = Except.ok fs₁) :
    fs₁.dirExists tp = true := by
  unfold create_dir at h
  by_cases hp : fs.pathExists tp
  · rw [if_pos hp] at h
    by_cases hfa : !force && !append
    · rw [if_pos hfa] at h
      exact absurd h (by simp)
    · rw [if_neg hfa] at h
      by_cases hf : force
      · rw [if_pos (by simp [hf])] at h
        exact FS.createDirAll_dirExists _ _ _ h
      · rw [if_neg (by simp [hf])] at h
        exact FS.createDirAll_dirExists _ _ _ h
  · rw [if_neg hp] at h
    exact FS.createDirAll_dirExists _ _ _ h

theorem create_dir_append_noop (fs : FS) (tp : List String)
    (h : fs.dirExists tp = true) : create_dir false true fs tp = Except.ok fs := by
  have hp : fs.pathExists tp = true := by simp [FS.pathExists, h]
  unfold create_dir FS.createDirAll
  simp [hp, h]

/-- A pre-existing target directory with one foreign file inside, used as a
concrete filesystem state. -/
def preFS : FS :=
  { dirs := [["t"]]
    files := [(["t", "old.txt"], { bytes := [1], perm := 420 })] }

/-- C7: with the target directory existing, the `Fail` policy errors out
before any filesystem mutation; `Force` recursively deletes the directory and
recreates it, leaving nothing below it; `Append` reuses it unchanged; a
missing target is created under any policy. -/
theorem create_dir_policy_spec (fs : FS) (p : List String) :
    (fs.pathExists p = true → create_dir false false fs p =
      Except.error "cannot create directory because it already exists") ∧
    (∀ append, fs.dirExists p = true → ∃ fs₂,
      create_dir true append fs p = Except.ok fs₂ ∧
      fs₂.dirExists p = true ∧
      ∀ q, p <+: q → q ≠ p → fs₂.pathExists q = false) ∧
    (fs.dirExists p = true → create_dir false true fs p = Except.ok fs) ∧
    (fs.pathExists p = false →
      create_dir false true fs p = Except.ok (fs.createDir p) ∧
      create_dir false false fs p = Except.ok (fs.createDir p)) := by
  refine ⟨?_, ?_, ?_, ?_⟩
  · intro hp
    unfold create_dir
    simp [hp]
  · intro append hd
    have hp : fs.pathExists p = true := by simp [FS.pathExists, hd]
    have hrd : (fs.removeDirAll p).dirExists p = false := by
      simp [FS.removeDirAll, FS.dirExists, List.mem_filter]
    have hrf : (fs.removeDirAll p).fileExists p = false := by
      simp only [FS.removeDirAll, FS.fileExists, FS.getFile]
      rw [FS.lookupFile_filter_below fs.files p p (List.prefix_refl p)]
      rfl
    refine ⟨(fs.removeDirAll p).createDir p, ?_, FS.dirExists_createDir_self _ p, ?_⟩
    · unfold create_dir FS.createDirAll
      simp [hp, hrd, hrf]
    · intro q hpq hqp
      have hdq : ((fs.removeDirAll p).createDir p).dirExists q = false := by
        simp only [FS.createDir, FS.removeDirAll, FS.dirExists, List.mem_cons,
          decide_eq_false_iff_not, not_or]
        refine ⟨fun he => hqp he, fun he => ?_⟩
        have := (List.mem_filter.mp he).2
        simp only [Bool.not_eq_true', decide_eq_false_iff_not] at this
        exact this hpq
      have hfq : ((fs.removeDirAll p).createDir p).fileExists q = false := by
        simp only [FS.createDir, FS.removeDirAll, FS.fileExists, FS.getFile]
        rw [FS.lookupFile_filter_below fs.files p q hpq]
        rfl
      simp [FS.pathExists, hdq, hfq]
  · intro hd
    exact create_dir_append_noop fs p hd
  · intro hp
    have hp2 := hp
    simp only [FS.pathExists, Bool.or_eq_false_iff] at hp2
    obtain ⟨hd, hf⟩ := hp2
    constructor
    · unfold create_dir FS.createDirAll
      simp [hp, hd, hf]
    · unfold create_dir FS.createDirAll
      simp [hp, hd, hf]

/-- Witness for `create_dir_policy_spec` at a concrete filesystem. -/
theorem create_dir_policy_spec_witness :
    create_dir false false preFS ["t"] =
      Except.error "cannot create directory because it already exists" ∧
    (∃ fs₂, create_dir true false preFS ["t"] = Except.ok fs₂ ∧
      fs₂.dirExists ["t"] = true ∧
      ∀ q, ["t"] <+: q → q ≠ ["t"] → fs₂.pathExists q = false) ∧
    create_dir false true preFS ["t"] = Except.ok preFS ∧
    create_dir false true preFS ["u"] = Except.ok (preFS.createDir ["u"]) := by
  refine ⟨?_, ?_, ?_, ?_⟩
  · exact (create_dir_policy_spec preFS ["t"]).1 (by decide)
  · exact (create_dir_policy_spec preFS ["t"]).2.1 false (by decide)
  · exact (create_dir_policy_spec preFS ["t"]).2.2.1 (by decide)
  · exact ((create_dir_policy_spec preFS ["u"]).2.2.2 (by decide)).1

/-- A filesystem holding one ten-byte file at the destination. -/
def staleFS : FS :=
  { dirs := []
    files := [(["out.txt"], { bytes := [48, 49, 50, 51, 52, 53, 54, 55, 56, 57], perm := 420 })] }

/-- A rendering context that matches every path with disable-templating and
leaves paths unchanged. -/
def rawCtx : RenderCtx :=
  { renderP := fun p => Except.ok p
    renderC := fun s => Except.ok s
    utf8Decode := fun _ => none
    utf8Encode := fun _ => []
    disable := fun _ => true }

/-- C4: the file write opens with write+create but WITHOUT truncate
(src/lib.rs:544), so writing three bytes over an existing ten-byte file
leaves the stale seven-byte tail in place — the resulting content is not the
new bytes, contradicting overwrite-if-present.  The permission bits are
reapplied as claimed. -/
theorem write_keeps_stale_tail :
    processEntry rawCtx false false [] staleFS
        { rel := ["out.txt"], kind := EntryKind.file, content := [97, 98, 99], perm := 511 } =
      Except.ok (staleFS.writeFile ["out.txt"] [97, 98, 99] 511) ∧
    (staleFS.writeFile ["out.txt"] [97, 98, 99] 511).getFile ["out.txt"] =
      some { bytes := [97, 98, 99, 51, 52, 53, 54, 55, 56, 57], perm := 511 } ∧
    ([97, 98, 99, 51, 52, 53, 54, 55, 56, 57] : List Nat) ≠ [97, 98, 99] := by
  refine ⟨rfl, rfl, by decide⟩

theorem processEntry_dirExists_mono (ctx : RenderCtx) (ap : Bool)
    (dp : List String) (fs fs₂ : FS) (e : SrcEntry) (q : List String)
    (h : processEntry ctx false ap dp fs e = Except.ok fs₂)
    (hq : fs.dirExists q = true) : fs₂.dirExists q = true := by
  unfold processEntry at h
  split at h
  · exact absurd h (by simp)
  · rename_i dest content hcomp
    split at h
    · simp only [Bool.and_false, if_false, if_neg, not_false_iff,
        Bool.false_eq_true] at h
      split at h
      · simp only [Except.ok.injEq] at h
        exact h ▸ hq
      · split at h
        · exact absurd h (by simp)
        · simp only [Except.ok.injEq] at h
          exact h ▸ FS.dirExists_createDir_mono fs dest q hq
    · split at h
      · simp only [Except.ok.injEq] at h
        exact h ▸ hq
      · simp only [Except.ok.injEq] at h
        rw [← h, FS.dirExists_writeFile]
        exact hq

theorem processEntry_pathExists_mono (ctx : RenderCtx) (ap : Bool)
    (dp : List String) (fs fs₂ : FS) (e : SrcEntry) (q : List String)
    (h : processEntry ctx false ap dp fs e = Except.ok fs₂)
    (hq : fs.pathExists q = true) : fs₂.pathExists q = true := by
  unfold processEntry at h
  split at h
  · exact absurd h (by simp)
  · rename_i dest content hcomp
    split at h
    · simp only [Bool.and_false, if_false, if_neg, not_false_iff,
        Bool.false_eq_true] at h
      split at h
      · simp only [Except.ok.injEq] at h
        exact h ▸ hq
      · split at h
        · exact absurd h (by simp)
        · simp only [Except.ok.injEq] at h
          exact h ▸ FS.pathExists_createDir_mono fs dest q hq
    · split at h
      · simp only [Except.ok.injEq] at h
        exact h ▸ hq
      · simp only [Except.ok.injEq] at h
        exact h ▸ FS.pathExists_writeFile_mono fs dest q content e.perm hq

theorem runEntries_dirExists_mono (ctx : RenderCtx) (ap : Bool)
    (dp : List String) (entries : List SrcEntry) (fs fs' : FS) (q : List String)
    (h : runEntries ctx false ap dp fs entries = Except.ok fs')
    (hq : fs.dirExists q = true) : fs'.dirExists q = true := by
  induction entries generalizing fs with
  | nil =>
    simp only [runEntries, Except.ok.injEq] at h
    exact h ▸ hq
  | cons e rest ih =>
    simp only [runEntries] at h
    split at h
    · exact absurd h (by simp)
    · rename_i fs₁ hstep
      exact ih fs₁ h (processEntry_dirExists_mono ctx ap dp fs fs₁ e q hstep hq)

theorem runEntries_pathExists_mono (ctx : RenderCtx) (ap : Bool)
    (dp : List String) (entries : List SrcEntry) (fs fs' : FS) (q : List String)
    (h : runEntries ctx false ap dp fs entries = Except.ok fs')
    (hq : fs.pathExists q = true) : fs'.pathExists q = true := by
  induction entries generalizing fs with
  | nil =>
    simp only [runEntries, Except.ok.injEq] at h
    exact h ▸ hq
  | cons e rest ih =>
    simp only [runEntries] at h
    split at h
    · exact absurd h (by simp)
    · rename_i fs₁ hstep
      exact ih fs₁ h (processEntry_pathExists_mono ctx ap dp fs fs₁ e q hstep hq)

theorem processEntry_dest_exists (ctx : RenderCtx) (ap : Bool)
    (dp : List String) (fs fs₂ : FS) (e : SrcEntry)
    (h : processEntry ctx false ap dp fs e = Except.ok fs₂) :
    ∃ dest content, entryComputed ctx dp e = Except.ok (dest, content) ∧
      fs₂.pathExists dest = true := by
  unfold processEntry at h
  split at h
  · exact absurd h (by simp)
  · rename_i dest content hcomp
    refine ⟨dest, content, hcomp, ?_⟩
    split at h
    · simp only [Bool.and_false, if_false, if_neg, not_false_iff,
        Bool.false_eq_true] at h
      split at h
      · rename_i hcond
        simp only [Bool.and_eq_true] at hcond
        simp only [Except.ok.injEq] at h
        exact h ▸ hcond.1
      · split at h
        · exact absurd h (by simp)
        · simp only [Except.ok.injEq] at h
          exact h ▸ FS.pathExists_createDir_self fs dest
    · split at h
      · rename_i hcond
        simp only [Bool.and_eq_true] at hcond
        simp only [Except.ok.injEq] at h
        exact h ▸ hcond.1.1
      · simp only [Except.ok.injEq] at h
        exact h ▸ FS.pathExists_writeFile_self fs dest content e.perm

theorem runEntries_dest_exists (ctx : RenderCtx) (ap : Bool)
    (dp : List String) (entries : List SrcEntry) (fs fs' : FS)
    (h : runEntries ctx false ap dp fs entries = Except.ok fs') :
    ∀ e ∈ entries, ∃ dest content,
      entryComputed ctx dp e = Except.ok (dest, content) ∧
      fs'.pathExists dest = true := by
  induction entries generalizing fs with
  | nil => intro e he; exact absurd he (by simp)
  | cons e0 rest ih =>
    intro e he
    simp only [runEntries] at h
    split at h
    · exact absurd h (by simp)
    · rename_i fs₁ hstep
      rcases List.mem_cons.mp he with rfl | he'
      · obtain ⟨dest, content, hcomp, hex⟩ :=
          processEntry_dest_exists ctx ap dp fs fs₁ e hstep
        exact ⟨dest, content, hcomp,
          runEntries_pathExists_mono ctx ap dp rest fs₁ fs' dest h hex⟩
      · exact ih fs₁ h e he'

theorem processEntry_skip (ctx : RenderCtx) (dp : List String) (fs : FS)
    (e : SrcEntry) (dest : List String) (content : List Nat)
    (hcomp : entryComputed ctx dp e = Except.ok (dest, content))
    (hex : fs.pathExists dest = true) :
    processEntry ctx false true dp fs e = Except.ok fs := by
  unfold processEntry
  rw [hcomp]
  cases hk : e.kind with
  | dir =>
    simp only [Bool.and_false, if_false, if_neg, not_false_iff,
      Bool.false_eq_true, hex, Bool.and_true, if_true, if_pos]
  | file =>
    simp [hex]

theorem runEntries_skip (ctx : RenderCtx) (dp : List String) (fs' : FS)
    (entries : List SrcEntry)
    (hall : ∀ e ∈ entries, ∃ dest content,
      entryComputed ctx dp e = Except.ok (dest, content) ∧
      fs'.pathExists dest = true) :
    runEntries ctx false true dp fs' entries = Except.ok fs' := by
  induction entries with
  | nil => rfl
  | cons e0 rest ih =>
    obtain ⟨dest, content, hcomp, hex⟩ := hall e0 (List.mem_cons_self _ _)
    simp only [runEntries, processEntry_skip ctx dp fs' e0 dest content hcomp hex]
    exact ih (fun e he => hall e (List.mem_cons_of_mem _ he))

/-- C5: running the filesystem part of materialization twice with the
`Append` policy (and `force` off) over the same entries — i.e. with
unchanged parameters, so unchanged rendered paths and contents — is
idempotent: the second run returns the state of the first run unchanged, so
every file created by the first run stays byte-identical and no extra
entries appear. -/
theorem materialize_append_idempotent (ctx : RenderCtx) (tp : List String)
    (entries : List SrcEntry) (fs fs' : FS)
    (h : internal_scaffold_fs ctx false true tp fs entries = Except.ok fs') :
    internal_scaffold_fs ctx false true tp fs' entries = Except.ok fs' := by
  unfold internal_scaffold_fs at h ⊢
  split at h
  · exact absurd h (by simp)
  · rename_i fs₁ hcreate
    have hd₁ : fs₁.dirExists tp = true :=
      create_dir_dirExists false true fs fs₁ tp hcreate
    have hd' : fs'.dirExists tp = true :=
      runEntries_dirExists_mono ctx true tp entries fs₁ fs' tp h hd₁
    rw [create_dir_append_noop fs' tp hd']
    exact runEntries_skip ctx tp fs' entries
      (runEntries_dest_exists ctx true tp entries fs₁ fs' h)

/-- An empty filesystem. -/
def emptyFS : FS := { dirs := [], files := [] }

/-- Witness for `materialize_append_idempotent`: one directory and one file
materialized twice under `Append` starting from an empty filesystem. -/
theorem materialize_append_idempotent_witness :
    internal_scaffold_fs rawCtx false true ["proj"]
        { dirs := [["proj", "src"], ["proj"]]
          files := [(["proj", "src", "a.txt"], { bytes := [7], perm := 420 })] }
        [{ rel := ["src"], kind := EntryKind.dir, content := [], perm := 493 },
         { rel := ["src", "a.txt"], kind := EntryKind.file, content := [7], perm := 420 }] =
      Except.ok
        { dirs := [["proj", "src"], ["proj"]]
          files := [(["proj", "src", "a.txt"], { bytes := [7], perm := 420 })] } :=
  materialize_append_idempotent rawCtx ["proj"]
    [{ rel := ["src"], kind := EntryKind.dir, content := [], perm := 493 },
     { rel := ["src", "a.txt"], kind := EntryKind.file, content := [7], perm := 420 }]
    emptyFS
    { dirs := [["proj", "src"], ["proj"]]
      files := [(["proj", "src", "a.txt"], { bytes := [7], perm := 420 })] }
    rfl

/-- A rendering context whose path renderer substitutes one placeholder
component and whose disable-templating matcher matches every path. -/
def c1Ctx : RenderCtx :=
  { renderP := fun p =>
      Except.ok (p.map (fun s => if s = "{{name}}.txt" then "demo.txt" else s))
    renderC := fun s => Except.ok s
    utf8Decode := fun _ => some ""
    utf8Encode := fun _ => []
    disable := fun _ => true }

/-- C1 counterexample: for a file matched by disable-templating, the loop
uses `dir_path.join(entry_path)` verbatim (src/lib.rs:519-520) — the
destination path is NOT rendered.  Here the renderer would map the
placeholder component to `demo.txt`, yet the file is materialized at the
verbatim placeholder path and nothing exists at the rendered path. -/
theorem disable_templating_path_not_rendered :
    processEntry c1Ctx false false [] emptyFS
        { rel := ["{{name}}.txt"], kind := EntryKind.file, content := [1, 2, 3], perm := 420 } =
      Except.ok (emptyFS.writeFile ["{{name}}.txt"] [1, 2, 3] 420) ∧
    (emptyFS.writeFile ["{{name}}.txt"] [1, 2, 3] 420).getFile ["{{name}}.txt"] =
      some { bytes := [1, 2, 3], perm := 420 } ∧
    (emptyFS.writeFile ["{{name}}.txt"] [1, 2, 3] 420).getFile ["demo.txt"] = none ∧
    c1Ctx.renderP ["{{name}}.txt"] = Except.ok ["demo.txt"] := by
  refine ⟨rfl, rfl, rfl, rfl⟩

/-- C1 (amended): for a file matched by the disable-templating matcher, the
content is copied byte-for-byte with no encoding requirement, and the
destination path is NOT rendered: the file is written at the verbatim join
of the target root and the template-relative path. -/
theorem disable_templating_verbatim (ctx : RenderCtx) (force append : Bool)
    (dirPath : List String) (fs : FS) (e : SrcEntry)
    (hk : e.kind = EntryKind.file) (hdis : ctx.disable e.rel = true)
    (hne : fs.pathExists (dirPath ++ e.rel) = false) :
    processEntry ctx force append dirPath fs e =
      Except.ok (fs.writeFile (dirPath ++ e.rel) e.content e.perm) ∧
    (fs.writeFile (dirPath ++ e.rel) e.content e.perm).getFile (dirPath ++ e.rel) =
      some { bytes := e.content, perm := e.perm } := by
  have hcomp : entryComputed ctx dirPath e =
      Except.ok (dirPath ++ e.rel, e.content) := by
    unfold entryComputed
    rw [hk]
    simp [hdis]
  have hgf : fs.getFile (dirPath ++ e.rel) = none := by
    have hfe : fs.fileExists (dirPath ++ e.rel) = false := by
      simp only [FS.pathExists, Bool.or_eq_false_iff] at hne
      exact hne.2
    rw [FS.fileExists] at hfe
    exact Option.not_isSome_iff_eq_none.mp (by simp [hfe])
  constructor
  · unfold processEntry
    rw [hcomp, hk]
    simp [hne]
  · rw [FS.writeFile, hgf]
    simp [FS.getFile_setFile_self]

/-- Witness for `disable_templating_verbatim` at a concrete entry. -/
theorem disable_templating_verbatim_witness :
    processEntry c1Ctx true true ["t"] emptyFS
        { rel := ["raw.bin"], kind := EntryKind.file, content := [0, 159, 146, 150], perm := 420 } =
      Except.ok (emptyFS.writeFile (["t"] ++ ["raw.bin"]) [0, 159, 146, 150] 420) ∧
    (emptyFS.writeFile (["t"] ++ ["raw.bin"]) [0, 159, 146, 150] 420).getFile
        (["t"] ++ ["raw.bin"]) =
      some { bytes := [0, 159, 146, 150], perm := 420 } :=
  disable_templating_verbatim c1Ctx true true ["t"] emptyFS
    { rel := ["raw.bin"], kind := EntryKind.file, content := [0, 159, 146, 150], perm := 420 }
    rfl rfl rfl

/-- A file tree: the shape of the template directory as walked. -/
inductive FTree where
  | file (name : String)
  | dir (name : String) (children : List FTree)

/-- The `filter_entry` predicate of the walk (src/lib.rs:459-479): rejects
entries whose full path contains a `.git` component (the full path is the
template path `tp` followed by the template-relative path), rejects the
`.scaffold.toml` at depth 1, and rejects anything the compiled exclude set
matches on the template-relative path. -/
def scaffoldPred (tp : List String) (excl : List String → Bool)
    (depth : Nat) (rel : List String) (name : String) : Bool :=
  !((tp ++ rel).contains ".git") &&
  !(decide (depth = 1) && (name == ".scaffold.toml")) &&
  !(excl rel)

mutual
/-- The template-relative paths yielded below one node by the walk, under
walkdir `filter_entry` semantics: an entry failing the predicate is not
yielded, and when it is a directory its subtree is not descended into.  The
yielded paths are exactly the entries the materialization loop consumes, so
an absent path never produces an entry in the target tree. -/
def walkNode (pred : Nat → List String → String → Bool) (depth : Nat)
    (rel : List String) : FTree → List (List String)
  | FTree.file n => if pred depth (rel ++ [n]) n then [rel ++ [n]] else []
  | FTree.dir n cs =>
    if pred depth (rel ++ [n]) n then
      (rel ++ [n]) :: walkChildren pred (depth + 1) (rel ++ [n]) cs
    else []

/-- The paths yielded below a list of sibling nodes, in order. -/
def walkChildren (pred : Nat → List String → String → Bool) (depth : Nat)
    (rel : List String) : List FTree → List (List String)
  | [] => []
  | c :: cs => walkNode pred depth rel c ++ walkChildren pred depth rel cs
end

mutual
/-- The template-relative paths on which the walk evaluates the predicate
below one node: the node itself always, its children only when the node
passes. -/
def testedNode (pred : Nat → List String → String → Bool) (depth : Nat)
    (rel : List String) : FTree → List (List String)
  | FTree.file n => [rel ++ [n]]
  | FTree.dir n cs =>
    (rel ++ [n]) ::
      (if pred depth (rel ++ [n]) n then
        testedChildren pred (depth + 1) (rel ++ [n]) cs
      else [])

/-- The tested paths below a list of sibling nodes. -/
def testedChildren (pred : Nat → List String → String → Bool) (depth : Nat)
    (rel : List String) : List FTree → List (List String)
  | [] => []
  | c :: cs => testedNode pred depth rel c ++ testedChildren pred depth rel cs
end

/-- C6: a template directory whose template-relative path the exclude
matcher accepts is pruned top-down: neither it nor any of its descendants is
ever yielded (so none produces an entry in the target tree), and no
descendant is ever tested against the patterns — the only path tested in the
whole subtree is the directory itself. -/
theorem exclude_prunes_subtree (tp : List String) (excl : List String → Bool)
    (depth : Nat) (rel : List String) (n : String) (cs : List FTree)
    (h : excl (rel ++ [n]) = true) :
    walkNode (scaffoldPred tp excl) depth rel (FTree.dir n cs) = [] ∧
    testedNode (scaffoldPred tp excl) depth rel (FTree.dir n cs) = [rel ++ [n]] := by
  have hp : scaffoldPred tp excl depth (rel ++ [n]) n = false := by
    simp [scaffoldPred, h]
  constructor
  · simp [walkNode, hp]
  · simp [testedNode, hp]

/-- Witness for `exclude_prunes_subtree`: a `node_modules` directory with a
child file, excluded by name. -/
theorem exclude_prunes_subtree_witness :
    walkNode (scaffoldPred ["tpl"] (fun p => p == ["node_modules"])) 0 []
        (FTree.dir "node_modules" [FTree.file "left-pad.js"]) = [] ∧
    testedNode (scaffoldPred ["tpl"] (fun p => p == ["node_modules"])) 0 []
        (FTree.dir "node_modules" [FTree.file "left-pad.js"]) = [["node_modules"]] :=
  exclude_prunes_subtree ["tpl"] (fun p => p == ["node_modules"]) 0 []
    "node_modules" [FTree.file "left-pad.js"] rfl

/-- The outcome the operating system gives one spawned hook command:
whether `setup_cmd` succeeded (shell-word split non-empty and valid),
whether the spawn succeeded, whether waiting succeeded, and the exit code —
which, notably, `runCmd` never inspects. -/
structure CmdOutcome where
  splitOk : Bool
  spawnOk : Bool
  waitOk : Bool
  exitCode : Int

/-- A computation that either panics (a Rust `expect`/`unwrap` firing) or
returns a value. -/
inductive PanicOr (α : Type) where
  | panicked (msg : String)
  | ok (a : α)

/-- `ScaffoldDescription::runCmd` (src/lib.rs:629-634): a `setup_cmd`
failure is returned as an error; a spawn failure or a wait failure panics
via `expect`; otherwise the function returns success — the exit status of
the child is never inspected. -/
def runCmd (o : CmdOutcome) : PanicOr (Except String Unit) :=
  if !o.splitOk then
    PanicOr.ok (Except.error "command argument is invalid")
  else if !o.spawnOk then PanicOr.panicked "cannot execute command"
  else if !o.waitOk then PanicOr.panicked "failed to wait on child process"
  else PanicOr.ok (Except.ok ())

/-- Collect the images of a list under a partial function, failing at the
first `none` (the way `.collect` materializes the unwrapped iterator). -/
def optionMapList {α β : Type} (f : α → Option β) : List α → Option (List β)
  | [] => some []
  | a :: rest =>
    match f a with
    | none => none
    | some b =>
      match optionMapList f rest with
      | none => none
      | some bs => some (b :: bs)

/-- The hook-command rendering of src/lib.rs:447-451 (pre) and 589-593
(post): each command is rendered, the Result is turned into an Option by
`.ok()` and immediately unwrapped — a render failure is a panic, not an
error return. -/
def render_hook_commands (render : String → Except String String)
    (cmds : List String) : PanicOr (List String) :=
  match optionMapList (fun c => (render c).toOption) cmds with
  | some l => PanicOr.ok l
  | none => PanicOr.panicked "called Option unwrap on a None value"

/-- The process-wide mutable state touched by `run_hooks`: the current
working directory. -/
structure HookWorld where
  cwd : List String
  deriving DecidableEq, Repr

/-- `std::env::set_current_dir`, with the operating system deciding which
paths can be entered. -/
def set_current_dir (canSet : List String → Bool) (w : HookWorld)
    (p : List String) : Except String HookWorld :=
  if canSet p then Except.ok { cwd := p } else Except.error "cannot change directory"

/-- The command loop of `run_hooks` (src/lib.rs:614-617): run each command
in order through `runCmd`, stopping at the first panic or error.  The
returned trace records, for each executed command, the process cwd in effect
when it ran (instrumentation only). -/
def run_cmds_loop (outcomes : String → CmdOutcome) (w : HookWorld) :
    List String → PanicOr (Except String (List (String × List String)))
  | [] => PanicOr.ok (Except.ok [])
  | c :: rest =>
    match runCmd (outcomes c) with
    | PanicOr.panicked m => PanicOr.panicked m
    | PanicOr.ok (Except.error e) => PanicOr.ok (Except.error e)
    | PanicOr.ok (Except.ok ()) =>
      match run_cmds_loop outcomes w rest with
      | PanicOr.panicked m => PanicOr.panicked m
      | PanicOr.ok (Except.error e) => PanicOr.ok (Except.error e)
      | PanicOr.ok (Except.ok tr) => PanicOr.ok (Except.ok ((c, w.cwd) :: tr))

/-- `ScaffoldDescription::run_hooks` (src/lib.rs:602-627): save the current
working directory, move the process-wide cwd to the project directory, run
the commands sequentially, then move the cwd back to the saved value. -/
def run_hooks (canSet : List String → Bool) (outcomes : String → CmdOutcome)
    (w : HookWorld) (project : List String) (commands : List String) :
    PanicOr (Except String (HookWorld × List (String × List String))) :=
  match set_current_dir canSet w project with
  | Except.error e =>
    PanicOr.ok (Except.error ("cannot change directory to project path: " ++ e))
  | Except.ok w₁ =>
    match run_cmds_loop outcomes w₁ commands with
    | PanicOr.panicked m => PanicOr.panicked m
    | PanicOr.ok (Except.error e) => PanicOr.ok (Except.error e)
    | PanicOr.ok (Except.ok tr) =>
      match set_current_dir canSet w₁ w.cwd with
      | Except.error e =>
        PanicOr.ok (Except.error ("cannot move back to original path: " ++ e))
      | Except.ok w₂ => PanicOr.ok (Except.ok (w₂, tr))

theorem optionMapList_eq_none {α β : Type} (f : α → Option β) (l : List α)
    (c : α) (hc : c ∈ l) (hn : f c = none) : optionMapList f l = none := by
  induction l with
  | nil => exact absurd hc (by simp)
  | cons hd tl ih =>
    rcases List.mem_cons.mp hc with rfl | hc'
    · simp [optionMapList, hn]
    · cases hf : f hd with
      | none => simp [optionMapList, hf]
      | some b => simp [optionMapList, hf, ih hc']

theorem run_cmds_loop_trace (outcomes : String → CmdOutcome) (w : HookWorld)
    (cmds : List String) (tr : List (String × List String))
    (h : run_cmds_loop outcomes w cmds = PanicOr.ok (Except.ok tr)) :
    ∀ x ∈ tr, x.2 = w.cwd := by
  induction cmds generalizing tr with
  | nil =>
    simp only [run_cmds_loop, PanicOr.ok.injEq, Except.ok.injEq] at h
    subst h
    intro x hx
    exact absurd hx (by simp)
  | cons c rest ih =>
    simp only [run_cmds_loop] at h
    split at h
    · exact absurd h (by simp)
    · exact absurd h (by simp)
    · split at h
      · exact absurd h (by simp)
      · exact absurd h (by simp)
      · rename_i tr' hrec
        simp only [PanicOr.ok.injEq, Except.ok.injEq] at h
        subst h
        intro x hx
        rcases List.mem_cons.mp hx with rfl | hx'
        · rfl
        · exact ih tr' hrec x hx'

/-- C2 (amended): a hook render failure or a spawn/wait failure aborts the
process by PANIC — not by returning an error from the materialization call —
while a non-zero exit status is ignored entirely: `runCmd` reports success
regardless of the exit code, so later hooks and files are still processed;
already-created filesystem state is untouched on every path (the hook
machinery never mutates the model filesystem). -/
theorem hook_failure_modes :
    (∀ o : CmdOutcome, o.splitOk = true → o.spawnOk = true → o.waitOk = true →
      runCmd o = PanicOr.ok (Except.ok ())) ∧
    (∀ o : CmdOutcome, o.splitOk = true → o.spawnOk = false →
      runCmd o = PanicOr.panicked "cannot execute command") ∧
    (∀ (render : String → Except String String) (cmds : List String) (c : String),
      c ∈ cmds → (render c).toOption = none →
      render_hook_commands render cmds =
        PanicOr.panicked "called Option unwrap on a None value") ∧
    (∀ (outcomes : String → CmdOutcome) (w : HookWorld) (cmds : List String),
      (∀ c ∈ cmds, (outcomes c).splitOk = true ∧ (outcomes c).spawnOk = true ∧
        (outcomes c).waitOk = true) →
      ∃ tr, run_cmds_loop outcomes w cmds = PanicOr.ok (Except.ok tr) ∧
        tr.map Prod.fst = cmds) := by
  refine ⟨?_, ?_, ?_, ?_⟩
  · intro o h1 h2 h3
    unfold runCmd
    simp [h1, h2, h3]
  · intro o h1 h2
    unfold runCmd
    simp [h1, h2]
  · intro render cmds c hc hn
    unfold render_hook_commands
    rw [optionMapList_eq_none _ cmds c hc hn]
  · intro outcomes w cmds hall
    induction cmds with
    | nil => exact ⟨[], rfl, rfl⟩
    | cons c rest ih =>
      obtain ⟨h1, h2, h3⟩ := hall c (List.mem_cons_self _ _)
      obtain ⟨tr, htr, hmap⟩ := ih (fun c' hc' => hall c' (List.mem_cons_of_mem _ hc'))
      refine ⟨(c, w.cwd) :: tr, ?_, by simp [hmap]⟩
      simp only [run_cmds_loop, runCmd, h1, h2, h3, Bool.not_true, if_false,
        if_neg, not_false_iff, Bool.false_eq_true, htr]

/-- An outcome function where the command `false` exits with status 1 and
everything else succeeds with status 0; all spawns succeed. -/
def failingOutcomes : String → CmdOutcome :=
  fun c =>
    { splitOk := true, spawnOk := true, waitOk := true
      exitCode := if c = "false" then 1 else 0 }

/-- C2 counterexample: a hook command exiting with non-zero status does NOT
make the call return an error — `runCmd` reports success, and a later hook
still runs. -/
theorem nonzero_exit_not_an_error :
    runCmd { splitOk := true, spawnOk := true, waitOk := true, exitCode := 1 } =
      PanicOr.ok (Except.ok ()) ∧
    run_cmds_loop failingOutcomes { cwd := ["proj"] } ["false", "echo done"] =
      PanicOr.ok (Except.ok [("false", ["proj"]), ("echo done", ["proj"])]) :=
  ⟨rfl, rfl⟩

/-- Witness for `hook_failure_modes` at concrete outcomes and commands. -/
theorem hook_failure_modes_witness :
    runCmd { splitOk := true, spawnOk := true, waitOk := true, exitCode := 7 } =
      PanicOr.ok (Except.ok ()) ∧
    runCmd { splitOk := true, spawnOk := false, waitOk := true, exitCode := 0 } =
      PanicOr.panicked "cannot execute command" ∧
    render_hook_commands (fun _ => Except.error "render failed") ["echo oops"] =
      PanicOr.panicked "called Option unwrap on a None value" ∧
    (∃ tr, run_cmds_loop failingOutcomes { cwd := ["p"] } ["false"] =
      PanicOr.ok (Except.ok tr) ∧ tr.map Prod.fst = ["false"]) := by
  refine ⟨?_, ?_, ?_, ?_⟩
  · exact hook_failure_modes.1 _ rfl rfl rfl
  · exact hook_failure_modes.2.1 _ rfl rfl
  · exact hook_failure_modes.2.2.1 _ ["echo oops"] "echo oops"
      (List.mem_cons_self _ _) rfl
  · exact hook_failure_modes.2.2.2 failingOutcomes { cwd := ["p"] } ["false"]
      (by intro c hc; exact ⟨rfl, rfl, rfl⟩)

/-- C10: hook execution mutates the process-wide working directory rather
than passing a cwd to the spawn: every command runs with the process cwd
equal to the project directory, and whenever `run_hooks` returns
successfully the process cwd is restored to exactly its value from before
the call. -/
theorem run_hooks_cwd_restored (canSet : List String → Bool)
    (outcomes : String → CmdOutcome) (w : HookWorld) (project : List String)
    (commands : List String) (w₂ : HookWorld) (tr : List (String × List String))
    (h : run_hooks canSet outcomes w project commands =
      PanicOr.ok (Except.ok (w₂, tr))) :
    w₂.cwd = w.cwd ∧ ∀ x ∈ tr, x.2 = project := by
  unfold run_hooks at h
  split at h
  · exact absurd h (by simp)
  · rename_i w₁ hset1
    have hw₁ : w₁ = { cwd := project } := by
      unfold set_current_dir at hset1
      by_cases hc : canSet project
      · rw [if_pos hc] at hset1
        simp only [Except.ok.injEq] at hset1
        exact hset1.symm
      · rw [if_neg hc] at hset1
        exact absurd hset1 (by simp)
    split at h
    · exact absurd h (by simp)
    · exact absurd h (by simp)
    · rename_i tr' hloop
      split at h
      · exact absurd h (by simp)
      · rename_i w₂' hset2
        have hw₂ : w₂' = { cwd := w.cwd } := by
          unfold set_current_dir at hset2
          by_cases hc : canSet w.cwd
          · rw [if_pos hc] at hset2
            simp only [Except.ok.injEq] at hset2
            exact hset2.symm
          · rw [if_neg hc] at hset2
            exact absurd hset2 (by simp)
        simp only [PanicOr.ok.injEq, Except.ok.injEq, Prod.mk.injEq] at h
        obtain ⟨rfl, rfl⟩ := h
        refine ⟨by rw [hw₂], ?_⟩
        intro x hx
        have := run_cmds_loop_trace outcomes w₁ commands tr' hloop x hx
        rw [this, hw₁]

/-- Witness for `run_hooks_cwd_restored` at a concrete world and hook list. -/
theorem run_hooks_cwd_restored_witness :
    (HookWorld.mk ["home"]).cwd = (HookWorld.mk ["home"]).cwd ∧
    ∀ x ∈ [("ls", ["proj"])], (x : String × List String).2 = ["proj"] :=
  run_hooks_cwd_restored (fun _ => true) failingOutcomes
    { cwd := ["home"] } ["proj"] ["ls"] { cwd := ["home"] } [("ls", ["proj"])] rfl

end CargoScaffold
